import Mathlib

/-!
Verification of the `build-env` resolver (`src/lib.rs`).

The Rust code is embedded shallowly:

* `OsVal` models `OsString` values: either valid UTF-8 text or opaque
  non-text bytes.
* `Env` models the ambient process environment (`std::env::var_os`): a map
  from variable names to optional raw values.  During resolution the code
  only reads it, so a pure function suffices.
* `BuildEnv` mirrors the Rust struct; the `BTreeSet<OsString>` of used
  variables becomes a list kept sorted and duplicate-free by the ordered
  insertion `btreeInsert` (matching the set's sorted iteration order).
  Variable names manipulated by the resolver are built from `String`
  pieces, so they are modelled as `String`.
* Functions that print cargo directives return the emitted lines
  explicitly, as a `List String` alongside the new state.
-/

deriving instance DecidableEq for Except

namespace BuildEnvModel

/-- A raw environment value (models `OsString`): either valid text or
non-text bytes that fail `into_string`. -/
inductive OsVal where
  | text (s : String)
  | nonText (bytes : List Nat)
deriving DecidableEq, Repr

/-- The ambient environment provider (models `std::env::var_os`). -/
def Env : Type := String → Option OsVal

/-- Models `std::env::VarError`. -/
inductive EnvVarError where
  | NotPresent
  | NotUnicode (os : OsVal)
deriving DecidableEq, Repr

/-- Models `VarErrorKind` from `src/lib.rs`. -/
inductive VarErrorKind where
  | NotString (os : OsVal)
  | RequiredEnvMissing (e : EnvVarError)
deriving DecidableEq, Repr

/-- Models `VarError` from `src/lib.rs`, with the key type specialised to
`String` (the resolver only ever builds keys from strings). -/
structure VarError where
  key : String
  kind : VarErrorKind
deriving DecidableEq, Repr

/-- Models `OsString::into_string`: succeeds on valid text, otherwise
returns the original value. -/
def OsVal.into_string : OsVal → Except OsVal String
  | .text s => .ok s
  | .nonText b => .error (.nonText b)

/-- Models `String::replace("-", "_")` for the single-character pattern
used by the resolver: every hyphen becomes an underscore. -/
def replaceHyphens (s : String) : String :=
  ⟨s.data.map fun c => if c = '-' then '_' else c⟩

/-- Strict lexicographic order on variable names, by character sequence
(models the `BTreeSet<OsString>` byte order on the names the resolver
builds, which are ASCII-compatible). -/
def strLt (x y : String) : Prop :=
  x.data < y.data

instance (x y : String) : Decidable (strLt x y) :=
  inferInstanceAs (Decidable (x.data < y.data))

/-- Ordered duplicate-free insertion: models `BTreeSet::insert` together
with the set's sorted iteration order. -/
def btreeInsert (x : String) : List String → List String
  | [] => [x]
  | y :: ys =>
    if strLt x y then x :: y :: ys
    else if x = y then y :: ys
    else y :: btreeInsert x ys

/-- Models the `BuildEnv` struct: the target and host triples plus the
ordered set of environment-variable names used so far. -/
structure BuildEnv where
  target : String
  host : String
  used_env_vars : List String
deriving DecidableEq, Repr

/-- Models `env::var` built on the provider: absent names and non-text
values are the two retrieval failures. -/
def envVar (env : Env) (key : String) : Except EnvVarError String :=
  match env key with
  | none => .error .NotPresent
  | some v =>
    match v.into_string with
    | .ok s => .ok s
    | .error o => .error (.NotUnicode o)

/-- Models `required_env_var`: wraps a retrieval failure in a `VarError`
naming the key. -/
def required_env_var (env : Env) (key : String) : Except VarError String :=
  match envVar env key with
  | .ok s => .ok s
  | .error e => .error ⟨key, .RequiredEnvMissing e⟩

/-- Models `BuildEnv::from_env`: reads `TARGET` then `HOST`, failing on the
first one that cannot be read; neither read is recorded as used. -/
def BuildEnv.from_env (env : Env) : Except VarError BuildEnv :=
  match required_env_var env "TARGET" with
  | .error e => .error e
  | .ok target =>
    match required_env_var env "HOST" with
    | .error e => .error e
    | .ok host => .ok ⟨target, host, []⟩

/-- Models `BuildEnv::new_cross`. -/
def BuildEnv.new_cross (host target : String) : BuildEnv :=
  ⟨target, host, []⟩

/-- Models `BuildEnv::new`. -/
def BuildEnv.new (trip : String) : BuildEnv :=
  ⟨trip, trip, []⟩

/-- The cargo directive line printed for a used variable name. -/
def hintLine (n : String) : String :=
  "cargo:rerun-if-env-changed=" ++ n

/-- Models `BuildEnv::cargo_print_used_env_vars`: one hint line per
recorded name, in the set's sorted order. -/
def BuildEnv.cargo_print_used_env_vars (be : BuildEnv) : List String :=
  be.used_env_vars.map hintLine

/-- Models `BuildEnv::mark_used`: prints the rerun hint for the name and
inserts it into the used set.  Returns the new state and the emitted
output. -/
def BuildEnv.mark_used (be : BuildEnv) (v : String) : BuildEnv × List String :=
  ({ be with used_env_vars := btreeInsert v be.used_env_vars }, [hintLine v])

/-- Models `BuildEnv::env_one`: query the environment for one name and mark
that name used regardless of the outcome. -/
def BuildEnv.env_one (env : Env) (be : BuildEnv) (v : String) :
    Option OsVal × BuildEnv × List String :=
  let val := env v
  let (be2, out) := be.mark_used v
  (val, be2, out)

/-- Models `BuildEnv::var`: the four-tier fallback chain, most specific
first, short-circuiting at the first present value. -/
def BuildEnv.var (env : Env) (be : BuildEnv) (var_base : String) :
    Option OsVal × BuildEnv × List String :=
  let target := be.target
  let host := be.host
  let kind := if host = target then "HOST" else "TARGET"
  let target_u := replaceHyphens target
  let a := var_base ++ "_" ++ target
  let b := var_base ++ "_" ++ target_u
  let c := kind ++ "_" ++ var_base
  match BuildEnv.env_one env be a with
  | (some v, be1, o1) => (some v, be1, o1)
  | (none, be1, o1) =>
    match BuildEnv.env_one env be1 b with
    | (some v, be2, o2) => (some v, be2, o1 ++ o2)
    | (none, be2, o2) =>
      match BuildEnv.env_one env be2 c with
      | (some v, be3, o3) => (some v, be3, o1 ++ o2 ++ o3)
      | (none, be3, o3) =>
        let (v4, be4, o4) := BuildEnv.env_one env be3 var_base
        (v4, be4, o1 ++ o2 ++ o3 ++ o4)

/-- Models `BuildEnv::var_str`: converts a found raw value to text,
wrapping a failure in a `NotString` error that names the base key. -/
def BuildEnv.var_str (env : Env) (be : BuildEnv) (var_base : String) :
    Option (Except VarError String) × BuildEnv × List String :=
  match BuildEnv.var env be var_base with
  | (some v, be2, out) =>
    (some (match v.into_string with
           | .ok s => .ok s
           | .error o => .error ⟨var_base, .NotString o⟩), be2, out)
  | (none, be2, out) => (none, be2, out)

/-- The four concrete candidate names `var` queries for a base name, in
attempt order. -/
def candidates (be : BuildEnv) (base : String) : List String :=
  [base ++ "_" ++ be.target,
   base ++ "_" ++ replaceHyphens be.target,
   (if be.host = be.target then "HOST" else "TARGET") ++ "_" ++ base,
   base]

/-- First present value in a list of names, scanning left to right. -/
def resolveFirst (env : Env) : List String → Option OsVal
  | [] => none
  | n :: ns =>
    match env n with
    | some v => some v
    | none => resolveFirst env ns

/-- The prefix of names actually attempted: every name up to and including
the first one present (all of them when none is present). -/
def attempted (env : Env) : List String → List String
  | [] => []
  | n :: ns =>
    match env n with
    | some _ => [n]
    | none => n :: attempted env ns

/-- Insert a batch of names into the used set, left to right. -/
def insertAll (names : List String) (s : List String) : List String :=
  names.foldl (fun acc n => btreeInsert n acc) s

/-- An environment defining exactly one name. -/
def onlyEnv (n : String) (v : OsVal) : Env :=
  fun m => if m = n then some v else none

/-- The empty ambient environment. -/
def noEnv : Env := fun _ => none

/-- An environment where both the plain base name `CC` and the
target-specific `CC_tgt` are set, with different values. -/
def envBoth : Env := fun n =>
  if n = "CC_tgt" then some (.text "specific")
  else if n = "CC" then some (.text "plain") else none

/-! ### Order facts about `strLt` -/

theorem strLt_irrefl (x : String) : ¬ strLt x x :=
  lt_irrefl x.data

theorem strLt_asymm {x y : String} (h : strLt x y) : ¬ strLt y x :=
  lt_asymm h

theorem strLt_trans {x y z : String} (h1 : strLt x y) (h2 : strLt y z) :
    strLt x z :=
  lt_trans h1 h2

theorem strLt_trichotomy (x y : String) : strLt x y ∨ x = y ∨ strLt y x := by
  rcases lt_trichotomy x.data y.data with h | h | h
  · exact Or.inl h
  · exact Or.inr (Or.inl (String.ext h))
  · exact Or.inr (Or.inr h)

theorem strLt_ne {x y : String} (h : strLt x y) : x ≠ y := by
  rintro rfl
  exact strLt_irrefl x h

/-! ### The ordered-set model of `BTreeSet` -/

theorem mem_btreeInsert {a x : String} {l : List String} :
    a ∈ btreeInsert x l ↔ a = x ∨ a ∈ l := by
  induction l with
  | nil => simp [btreeInsert]
  | cons y ys ih =>
    by_cases h1 : strLt x y
    · simp only [btreeInsert, if_pos h1, List.mem_cons]
    · by_cases h2 : x = y
      · subst h2
        simp [btreeInsert, h1, List.mem_cons]
      · simp only [btreeInsert, if_neg h1, if_neg h2, List.mem_cons, ih]
        tauto

theorem sorted_btreeInsert {x : String} {l : List String}
    (h : l.Sorted strLt) : (btreeInsert x l).Sorted strLt := by
  induction l with
  | nil => simp [btreeInsert]
  | cons y ys ih =>
    rw [List.sorted_cons] at h
    obtain ⟨hy, hys⟩ := h
    by_cases h1 : strLt x y
    · simp only [btreeInsert, if_pos h1]
      rw [List.sorted_cons]
      refine ⟨?_, ?_⟩
      · intro b hb
        rcases List.mem_cons.mp hb with rfl | hb
        · exact h1
        · exact strLt_trans h1 (hy b hb)
      · rw [List.sorted_cons]
        exact ⟨hy, hys⟩
    · by_cases h2 : x = y
      · simp only [btreeInsert, if_neg h1, if_pos h2]
        rw [List.sorted_cons]
        exact ⟨hy, hys⟩
      · simp only [btreeInsert, if_neg h1, if_neg h2]
        rw [List.sorted_cons]
        refine ⟨?_, ih hys⟩
        intro b hb
        rcases mem_btreeInsert.mp hb with rfl | hb
        · rcases strLt_trichotomy b y with h | h | h
          · exact absurd h h1
          · exact absurd h h2
          · exact h
        · exact hy b hb

theorem btreeInsert_of_mem {x : String} {l : List String}
    (hs : l.Sorted strLt) (hm : x ∈ l) : btreeInsert x l = l := by
  induction l with
  | nil => cases hm
  | cons y ys ih =>
    rw [List.sorted_cons] at hs
    obtain ⟨hy, hys⟩ := hs
    rcases List.mem_cons.mp hm with rfl | hm
    · simp [btreeInsert, strLt_irrefl x]
    · have hyx : strLt y x := hy x hm
      have h1 : ¬ strLt x y := strLt_asymm hyx
      have h2 : x ≠ y := fun h => strLt_ne hyx h.symm
      simp only [btreeInsert, if_neg h1, if_neg h2, ih hys hm]

theorem nodup_of_sorted {l : List String} (h : l.Sorted strLt) : l.Nodup :=
  List.Pairwise.imp (fun hab => strLt_ne hab) h

theorem insertAll_cons (n : String) (ns : List String) (s : List String) :
    insertAll (n :: ns) s = insertAll ns (btreeInsert n s) :=
  rfl

theorem mem_insertAll {a : String} {names : List String} :
    ∀ {s : List String}, a ∈ insertAll names s ↔ a ∈ s ∨ a ∈ names := by
  induction names with
  | nil => intro s; simp [insertAll]
  | cons n ns ih =>
    intro s
    rw [insertAll_cons, ih, mem_btreeInsert]
    simp only [List.mem_cons]
    tauto

theorem sorted_insertAll {names : List String} :
    ∀ {s : List String}, s.Sorted strLt → (insertAll names s).Sorted strLt := by
  induction names with
  | nil => intro s h; exact h
  | cons n ns ih =>
    intro s h
    rw [insertAll_cons]
    exact ih (sorted_btreeInsert h)

theorem insertAll_of_subset {names : List String} :
    ∀ {s : List String}, s.Sorted strLt → (∀ n ∈ names, n ∈ s) →
      insertAll names s = s := by
  induction names with
  | nil => intro s _ _; rfl
  | cons n ns ih =>
    intro s hs hsub
    rw [insertAll_cons, btreeInsert_of_mem hs (hsub n (List.mem_cons_self n ns))]
    exact ih hs fun m hm => hsub m (List.mem_cons_of_mem n hm)

/-- A sorted duplicate-free list of names is determined by its members. -/
theorem sorted_eq_of_mem_iff :
    ∀ {l₁ l₂ : List String}, l₁.Sorted strLt → l₂.Sorted strLt →
      (∀ x, x ∈ l₁ ↔ x ∈ l₂) → l₁ = l₂ := by
  intro l₁
  induction l₁ with
  | nil =>
    intro l₂ _ _ hm
    cases l₂ with
    | nil => rfl
    | cons y ys => exact absurd ((hm y).mpr (List.mem_cons_self y ys)) (by simp)
  | cons x xs ih =>
    intro l₂ h₁ h₂ hm
    cases l₂ with
    | nil => exact absurd ((hm x).mp (List.mem_cons_self x xs)) (by simp)
    | cons y ys =>
      rw [List.sorted_cons] at h₁ h₂
      obtain ⟨hx, hxs⟩ := h₁
      obtain ⟨hy, hys⟩ := h₂
      have hxy : x = y := by
        rcases List.mem_cons.mp ((hm x).mp (List.mem_cons_self x xs)) with h | h
        · exact h
        · rcases List.mem_cons.mp ((hm y).mpr (List.mem_cons_self y ys)) with h' | h'
          · exact h'.symm
          · exact absurd (hy x h) (strLt_asymm (hx y h'))
      subst hxy
      have : ∀ z, z ∈ xs ↔ z ∈ ys := by
        intro z
        constructor
        · intro hz
          rcases List.mem_cons.mp ((hm z).mp (List.mem_cons_of_mem x hz)) with h | h
          · exact absurd (hx z hz) (h ▸ strLt_irrefl x)
          · exact h
        · intro hz
          rcases List.mem_cons.mp ((hm z).mpr (List.mem_cons_of_mem x hz)) with h | h
          · exact absurd (hy z hz) (h ▸ strLt_irrefl x)
          · exact h
      rw [ih hxs hys this]

/-! ### One resolution, in closed form -/

theorem var_eq_spec (env : Env) (be : BuildEnv) (base : String) :
    BuildEnv.var env be base =
      (resolveFirst env (candidates be base),
       { be with used_env_vars :=
           insertAll (attempted env (candidates be base)) be.used_env_vars },
       (attempted env (candidates be base)).map hintLine) := by
  cases h1 : env (base ++ "_" ++ be.target) with
  | some v =>
    simp [BuildEnv.var, BuildEnv.env_one, BuildEnv.mark_used, candidates,
      resolveFirst, attempted, insertAll, h1]
  | none =>
    cases h2 : env (base ++ "_" ++ replaceHyphens be.target) with
    | some v =>
      simp [BuildEnv.var, BuildEnv.env_one, BuildEnv.mark_used, candidates,
        resolveFirst, attempted, insertAll, h1, h2]
    | none =>
      cases h3 :
          env ((if be.host = be.target then "HOST" else "TARGET") ++ "_" ++ base) with
      | some v =>
        simp [BuildEnv.var, BuildEnv.env_one, BuildEnv.mark_used, candidates,
          resolveFirst, attempted, insertAll, h1, h2, h3]
      | none =>
        cases h4 : env base with
        | some v =>
          simp [BuildEnv.var, BuildEnv.env_one, BuildEnv.mark_used, candidates,
            resolveFirst, attempted, insertAll, h1, h2, h3, h4]
        | none =>
          simp [BuildEnv.var, BuildEnv.env_one, BuildEnv.mark_used, candidates,
            resolveFirst, attempted, insertAll, h1, h2, h3, h4]

theorem var_fst (env : Env) (be : BuildEnv) (base : String) :
    (BuildEnv.var env be base).1 = resolveFirst env (candidates be base) := by
  rw [var_eq_spec]

theorem var_used (env : Env) (be : BuildEnv) (base : String) :
    (BuildEnv.var env be base).2.1.used_env_vars =
      insertAll (attempted env (candidates be base)) be.used_env_vars := by
  rw [var_eq_spec]

theorem var_target (env : Env) (be : BuildEnv) (base : String) :
    (BuildEnv.var env be base).2.1.target = be.target := by
  rw [var_eq_spec]

theorem var_host (env : Env) (be : BuildEnv) (base : String) :
    (BuildEnv.var env be base).2.1.host = be.host := by
  rw [var_eq_spec]

theorem var_out (env : Env) (be : BuildEnv) (base : String) :
    (BuildEnv.var env be base).2.2 =
      (attempted env (candidates be base)).map hintLine := by
  rw [var_eq_spec]

theorem candidates_congr {be be' : BuildEnv} (base : String)
    (ht : be'.target = be.target) (hh : be'.host = be.host) :
    candidates be' base = candidates be base := by
  simp [candidates, ht, hh]

theorem resolveFirst_onlyEnv (n : String) (v : OsVal) (l : List String) :
    resolveFirst (onlyEnv n v) l = if n ∈ l then some v else none := by
  induction l with
  | nil => rfl
  | cons m ms ih =>
    by_cases h : m = n
    · subst h
      simp [resolveFirst, onlyEnv, List.mem_cons]
    · have h' : ¬ n = m := fun hnm => h hnm.symm
      simp [resolveFirst, onlyEnv, h, h', ih, List.mem_cons]

theorem attempted_subset {env : Env} :
    ∀ {l : List String} {x : String}, x ∈ attempted env l → x ∈ l := by
  intro l
  induction l with
  | nil => intro x h; cases h
  | cons n ns ih =>
    intro x h
    rcases hn : env n with _ | v <;> rw [attempted, hn] at h
    · rcases List.mem_cons.mp h with rfl | h
      · exact List.mem_cons_self x ns
      · exact List.mem_cons_of_mem n (ih h)
    · rcases List.mem_cons.mp h with rfl | h
      · exact List.mem_cons_self x ns
      · cases h

theorem attempted_ne_nil {env : Env} {l : List String} (h : l ≠ []) :
    attempted env l ≠ [] := by
  cases l with
  | nil => exact absurd rfl h
  | cons n ns => rcases hn : env n with _ | v <;> simp [attempted, hn]

theorem hostTag_ne_targetTag (base : String) :
    ("HOST_" ++ base) ≠ ("TARGET_" ++ base) := by
  intro h
  have hlen := congrArg String.length h
  rw [String.length_append, String.length_append] at hlen
  have h5 : ("HOST_" : String).length = 5 := by decide
  have h7 : ("TARGET_" : String).length = 7 := by decide
  rw [h5, h7] at hlen
  omega

theorem candidates_var (env : Env) (be : BuildEnv) (base b2 : String) :
    candidates ((BuildEnv.var env be b2).2.1) base = candidates be base :=
  candidates_congr base (var_target env be b2) (var_host env be b2)

theorem var_str_state (env : Env) (be : BuildEnv) (base : String) :
    (BuildEnv.var_str env be base).2.1 = (BuildEnv.var env be base).2.1 := by
  rcases hv : BuildEnv.var env be base with ⟨r, be2, out⟩
  rcases r with _ | val <;> simp [BuildEnv.var_str, hv]

theorem host_prefix_eq (base : String) :
    ("HOST" : String) ++ "_" ++ base = "HOST_" ++ base := by
  have h : ("HOST" : String) ++ "_" = "HOST_" := by decide
  rw [h]

theorem target_prefix_eq (base : String) :
    ("TARGET" : String) ++ "_" ++ base = "TARGET_" ++ base := by
  have h : ("TARGET" : String) ++ "_" = "TARGET_" := by decide
  rw [h]

/-! ### Claims -/

/-- C1: for every base name and environment, `var` resolves exactly the
four candidate names `<base>_<target>`, `<base>_<target with hyphens
replaced by underscores>`, `<ROLE>_<base>`, `<base>` in that order and
returns the value of the first candidate present (`none` when none is);
in particular when both the plain base name and `<base>_<target>` are set,
the `<base>_<target>` value is returned. -/
theorem c1_resolution_order (env : Env) (be : BuildEnv) (base : String) :
    ((BuildEnv.var env be base).1 =
      resolveFirst env
        [base ++ "_" ++ be.target,
         base ++ "_" ++ replaceHyphens be.target,
         (if be.host = be.target then "HOST" else "TARGET") ++ "_" ++ base,
         base]) ∧
    ∀ v : OsVal, env (base ++ "_" ++ be.target) = some v →
      (BuildEnv.var env be base).1 = some v := by
  refine ⟨var_fst env be base, ?_⟩
  intro v hv
  rw [var_fst]
  simp [candidates, resolveFirst, hv]

theorem c1_witness :
    (BuildEnv.var envBoth (BuildEnv.new "tgt") "CC").1 = some (.text "specific") :=
  (c1_resolution_order envBoth (BuildEnv.new "tgt") "CC").2 (.text "specific")
    (by decide)

/-- C2: each resolution records into `used_env_vars` exactly the candidate
names attempted so far (every name up to and including the first present
one), in attempt order, and nothing else: the resulting set is the ordered
insertion of the attempted names into the previous set, and a name is a
member afterwards exactly when it was before or was attempted. -/
theorem c2_usage_recording (env : Env) (be : BuildEnv) (base : String) :
    ((BuildEnv.var env be base).2.1.used_env_vars =
      insertAll (attempted env (candidates be base)) be.used_env_vars) ∧
    ∀ x : String,
      x ∈ (BuildEnv.var env be base).2.1.used_env_vars ↔
        x ∈ be.used_env_vars ∨ x ∈ attempted env (candidates be base) := by
  refine ⟨var_used env be base, ?_⟩
  intro x
  rw [var_used]
  exact mem_insertAll

theorem c2_witness :
    "CC_tgt" ∈ (BuildEnv.var envBoth (BuildEnv.new "tgt") "CC").2.1.used_env_vars :=
  ((c2_usage_recording envBoth (BuildEnv.new "tgt") "CC").2 "CC_tgt").mpr
    (Or.inr (by decide))

/-- C3: with `host = target = "this-is-a-target"` and only `CC` set to
`"a-cc-value"`, `var_str "CC"` returns `some (ok "a-cc-value")` and the
sorted usage record afterwards is exactly
`["CC", "CC_this-is-a-target", "CC_this_is_a_target", "HOST_CC"]`. -/
theorem c3_concrete_most_general :
    ((BuildEnv.var_str (onlyEnv "CC" (.text "a-cc-value"))
        (BuildEnv.new "this-is-a-target") "CC").1 =
      some (.ok "a-cc-value")) ∧
    (BuildEnv.var_str (onlyEnv "CC" (.text "a-cc-value"))
        (BuildEnv.new "this-is-a-target") "CC").2.1.used_env_vars =
      ["CC", "CC_this-is-a-target", "CC_this_is_a_target", "HOST_CC"] := by
  constructor <;> decide

/-- C4 counterexample: the claim that in a cross resolver a set
`HOST_<base>` is never matched by `var` fails when `HOST_<base>` collides
with a target-derived candidate name.  With `host = "other-host"`,
`target = "HOST"` and base name `"HOST"`, the name `HOST_HOST` is both
`HOST_<base>` and the first candidate `<base>_<target>`, so a resolver
with only `HOST_HOST` set does match it. -/
theorem c4_counterexample :
    ((BuildEnv.new_cross "other-host" "HOST").host ≠
      (BuildEnv.new_cross "other-host" "HOST").target) ∧
    (BuildEnv.var (onlyEnv ("HOST_" ++ "HOST") (.text "v"))
        (BuildEnv.new_cross "other-host" "HOST") "HOST").1 =
      some (.text "v") := by
  constructor <;> decide

/-- C4 (amended): the third candidate is `HOST_<base>` exactly when
`host = target` and `TARGET_<base>` exactly when they differ, and the
first two candidates are built from the target triple: a value set under
the first candidate, under its underscored spelling, under `HOST_<base>`
in a non-cross resolver, or under `TARGET_<base>` in a cross resolver is
found; and in a cross resolver a set `HOST_<base>` is never matched —
provided `HOST_<base>` does not itself coincide with one of the
target-derived candidate names or the bare base name. -/
theorem c4_role_selection (be : BuildEnv) (base : String) (v : OsVal) :
    ((BuildEnv.var (onlyEnv (base ++ "_" ++ be.target) v) be base).1 = some v) ∧
    ((BuildEnv.var (onlyEnv (base ++ "_" ++ replaceHyphens be.target) v) be base).1 =
      some v) ∧
    (be.host = be.target →
      (BuildEnv.var (onlyEnv ("HOST_" ++ base) v) be base).1 = some v) ∧
    (be.host ≠ be.target →
      (BuildEnv.var (onlyEnv ("TARGET_" ++ base) v) be base).1 = some v) ∧
    (be.host ≠ be.target →
      ("HOST_" ++ base) ≠ base ++ "_" ++ be.target →
      ("HOST_" ++ base) ≠ base ++ "_" ++ replaceHyphens be.target →
      ("HOST_" ++ base) ≠ base →
      (BuildEnv.var (onlyEnv ("HOST_" ++ base) v) be base).1 = none) := by
  refine ⟨?_, ?_, ?_, ?_, ?_⟩
  · rw [var_fst, resolveFirst_onlyEnv]
    simp [candidates]
  · rw [var_fst, resolveFirst_onlyEnv]
    simp [candidates]
  · intro hq
    rw [var_fst, resolveFirst_onlyEnv]
    simp [candidates, hq, host_prefix_eq]
  · intro hq
    rw [var_fst, resolveFirst_onlyEnv]
    simp [candidates, hq, target_prefix_eq]
  · intro hq h1 h2 h4
    rw [var_fst, resolveFirst_onlyEnv]
    have h3 : ("HOST_" ++ base) ≠ ("TARGET" : String) ++ "_" ++ base := by
      rw [target_prefix_eq]
      exact hostTag_ne_targetTag base
    simp [candidates, hq, h1, h2, h3, h4, hostTag_ne_targetTag base]

theorem c4_witness :
    (BuildEnv.var (onlyEnv ("HOST_" ++ "CC") (.text "x"))
        (BuildEnv.new_cross "host-a" "targ-b") "CC").1 = none :=
  (c4_role_selection (BuildEnv.new_cross "host-a" "targ-b") "CC"
      (.text "x")).2.2.2.2 (by decide) (by decide) (by decide) (by decide)

/-- C5: `var_str` returns `none` exactly when `var` does; a found raw
value that is valid text yields `some (ok text)`, and a found non-text
value yields `some (error e)` where `e` is a `NotString` error carrying
the requested base name and the offending raw value; and the failed
conversion leaves the resolver state (hence the usage record) exactly as
the underlying `var` lookup left it. -/
theorem c5_text_conversion (env : Env) (be : BuildEnv) (base : String) :
    ((BuildEnv.var_str env be base).1 = none ↔
      (BuildEnv.var env be base).1 = none) ∧
    (∀ s : String, (BuildEnv.var env be base).1 = some (.text s) →
      (BuildEnv.var_str env be base).1 = some (.ok s)) ∧
    (∀ bs : List Nat, (BuildEnv.var env be base).1 = some (.nonText bs) →
      (BuildEnv.var_str env be base).1 =
        some (.error ⟨base, .NotString (.nonText bs)⟩)) ∧
    (BuildEnv.var_str env be base).2.1 = (BuildEnv.var env be base).2.1 := by
  refine ⟨?_, ?_, ?_, var_str_state env be base⟩
  · rcases hv : BuildEnv.var env be base with ⟨r, be2, out⟩
    rcases r with _ | val <;> simp [BuildEnv.var_str, hv]
  · intro s hs
    rcases hv : BuildEnv.var env be base with ⟨r, be2, out⟩
    rw [hv] at hs
    have hr : r = some (OsVal.text s) := hs
    subst hr
    simp [BuildEnv.var_str, hv, OsVal.into_string]
  · intro bs hbs
    rcases hv : BuildEnv.var env be base with ⟨r, be2, out⟩
    rw [hv] at hbs
    have hr : r = some (OsVal.nonText bs) := hbs
    subst hr
    simp [BuildEnv.var_str, hv, OsVal.into_string]

theorem c5_witness :
    (BuildEnv.var_str (onlyEnv "CC" (.nonText [255]))
        (BuildEnv.new "tgt") "CC").1 =
      some (.error ⟨"CC", .NotString (.nonText [255])⟩) :=
  (c5_text_conversion (onlyEnv "CC" (.nonText [255]))
      (BuildEnv.new "tgt") "CC").2.2.1 [255] (by decide)

/-- C6: starting from a sorted usage record, one resolution leaves the
record sorted ascending (in `strLt`) and duplicate-free; resolving the
same base name again changes nothing; and two resolutions of different
base names commute, so the final record is independent of the
interleaving of the same calls. -/
theorem c6_usage_deterministic (env : Env) (be : BuildEnv) (base base2 : String)
    (h : be.used_env_vars.Sorted strLt) :
    ((BuildEnv.var env be base).2.1.used_env_vars.Sorted strLt) ∧
    ((BuildEnv.var env be base).2.1.used_env_vars.Nodup) ∧
    ((BuildEnv.var env (BuildEnv.var env be base).2.1 base).2.1.used_env_vars =
      (BuildEnv.var env be base).2.1.used_env_vars) ∧
    ((BuildEnv.var env (BuildEnv.var env be base).2.1 base2).2.1.used_env_vars =
      (BuildEnv.var env (BuildEnv.var env be base2).2.1 base).2.1.used_env_vars) := by
  refine ⟨?_, ?_, ?_, ?_⟩
  · rw [var_used]
    exact sorted_insertAll h
  · rw [var_used]
    exact nodup_of_sorted (sorted_insertAll h)
  · simp only [var_used, candidates_var]
    refine insertAll_of_subset (sorted_insertAll h) ?_
    intro n hn
    exact mem_insertAll.mpr (Or.inr hn)
  · simp only [var_used, candidates_var]
    refine sorted_eq_of_mem_iff (sorted_insertAll (sorted_insertAll h))
      (sorted_insertAll (sorted_insertAll h)) ?_
    intro x
    simp only [mem_insertAll]
    tauto

theorem c6_witness :
    ((BuildEnv.var (onlyEnv "CC" (.text "x"))
        (BuildEnv.new "tgt") "CC").2.1.used_env_vars).Nodup :=
  (c6_usage_deterministic (onlyEnv "CC" (.text "x")) (BuildEnv.new "tgt")
      "CC" "AR" List.sorted_nil).2.1

/-- C7: `from_env` fails with a `RequiredVariableMissing`-style error
naming `TARGET` when `TARGET` is unreadable (regardless of `HOST`), fails
naming `HOST` when `TARGET` is readable but `HOST` is not, and on success
the resolver's usage record is empty. -/
theorem c7_from_env (env : Env) :
    (∀ e : EnvVarError, envVar env "TARGET" = .error e →
      BuildEnv.from_env env = .error ⟨"TARGET", .RequiredEnvMissing e⟩) ∧
    (∀ (t : String) (e : EnvVarError),
      envVar env "TARGET" = .ok t → envVar env "HOST" = .error e →
      BuildEnv.from_env env = .error ⟨"HOST", .RequiredEnvMissing e⟩) ∧
    (∀ be : BuildEnv, BuildEnv.from_env env = .ok be →
      be.used_env_vars = []) := by
  refine ⟨?_, ?_, ?_⟩
  · intro e he
    simp [BuildEnv.from_env, required_env_var, he]
  · intro t e ht he
    simp [BuildEnv.from_env, required_env_var, ht, he]
  · intro be hbe
    rcases hT : envVar env "TARGET" with e | t
    · simp [BuildEnv.from_env, required_env_var, hT] at hbe
    · rcases hH : envVar env "HOST" with e | hst
      · simp [BuildEnv.from_env, required_env_var, hT, hH] at hbe
      · simp [BuildEnv.from_env, required_env_var, hT, hH] at hbe
        rw [← hbe]

theorem c7_witness :
    BuildEnv.from_env noEnv =
      .error ⟨"TARGET", .RequiredEnvMissing .NotPresent⟩ :=
  (c7_from_env noEnv).1 .NotPresent (by decide)

/-- C8: every operation on a constructed resolver leaves the `target` and
`host` fields unchanged, and the `used_env_vars` set after the operation
contains every member it had before (it only grows). -/
theorem c8_state_invariants (env : Env) (be : BuildEnv) (base nm : String) :
    ((BuildEnv.var env be base).2.1.target = be.target ∧
     (BuildEnv.var env be base).2.1.host = be.host) ∧
    ((BuildEnv.var_str env be base).2.1.target = be.target ∧
     (BuildEnv.var_str env be base).2.1.host = be.host) ∧
    ((be.mark_used nm).1.target = be.target ∧
     (be.mark_used nm).1.host = be.host) ∧
    (∀ x ∈ be.used_env_vars, x ∈ (BuildEnv.var env be base).2.1.used_env_vars) ∧
    (∀ x ∈ be.used_env_vars,
      x ∈ (BuildEnv.var_str env be base).2.1.used_env_vars) ∧
    (∀ x ∈ be.used_env_vars, x ∈ (be.mark_used nm).1.used_env_vars) := by
  refine ⟨⟨var_target env be base, var_host env be base⟩, ?_, ⟨rfl, rfl⟩,
    ?_, ?_, ?_⟩
  · rw [var_str_state]
    exact ⟨var_target env be base, var_host env be base⟩
  · intro x hx
    rw [var_used]
    exact mem_insertAll.mpr (Or.inl hx)
  · intro x hx
    rw [var_str_state, var_used]
    exact mem_insertAll.mpr (Or.inl hx)
  · intro x hx
    exact mem_btreeInsert.mpr (Or.inr hx)

theorem c8_witness :
    "A" ∈ (BuildEnv.var noEnv ⟨"t", "t", ["A"]⟩ "CC").2.1.used_env_vars :=
  (c8_state_invariants noEnv ⟨"t", "t", ["A"]⟩ "CC" "B").2.2.2.1 "A" (by decide)

/-- C9: `new_cross` and `new` validate nothing: for all strings (the empty
string included) construction succeeds, the `target` and `host` accessors
return exactly the supplied strings (`new` setting both to the one
triple), and the usage record starts empty. -/
theorem c9_construction (host target trip : String) :
    (BuildEnv.new_cross host target).target = target ∧
    (BuildEnv.new_cross host target).host = host ∧
    (BuildEnv.new_cross host target).used_env_vars = [] ∧
    (BuildEnv.new trip).target = trip ∧
    (BuildEnv.new trip).host = trip ∧
    (BuildEnv.new trip).used_env_vars = [] :=
  ⟨rfl, rfl, rfl, rfl, rfl, rfl⟩

/-- C10: `mark_used` emits exactly one reinvocation-hint line on every
call, even for a name already in `used_env_vars` (in which case the set is
unchanged); and resolving the same base name a second time emits the same
non-empty hint lines again while adding nothing to the usage set. -/
theorem c10_hint_emission (env : Env) (be : BuildEnv) (base : String)
    (h : be.used_env_vars.Sorted strLt) :
    (∀ nm : String, (be.mark_used nm).2 = [hintLine nm]) ∧
    (∀ nm ∈ be.used_env_vars,
      (be.mark_used nm).2 = [hintLine nm] ∧
      (be.mark_used nm).1.used_env_vars = be.used_env_vars) ∧
    ((BuildEnv.var env (BuildEnv.var env be base).2.1 base).2.2 =
      (BuildEnv.var env be base).2.2) ∧
    ((BuildEnv.var env be base).2.2 ≠ []) ∧
    ((BuildEnv.var env (BuildEnv.var env be base).2.1 base).2.1.used_env_vars =
      (BuildEnv.var env be base).2.1.used_env_vars) := by
  refine ⟨fun nm => rfl, ?_, ?_, ?_, ?_⟩
  · intro nm hm
    exact ⟨rfl, by simp [BuildEnv.mark_used, btreeInsert_of_mem h hm]⟩
  · simp only [var_out, candidates_var]
  · rw [var_out]
    intro hc
    exact attempted_ne_nil (l := candidates be base) (by simp [candidates])
      (List.map_eq_nil_iff.mp hc)
  · simp only [var_used, candidates_var]
    refine insertAll_of_subset (sorted_insertAll h) ?_
    intro n hn
    exact mem_insertAll.mpr (Or.inr hn)

theorem c10_witness :
    ((BuildEnv.new "t").mark_used "A").2 = [hintLine "A"] :=
  (c10_hint_emission noEnv (BuildEnv.new "t") "CC" List.sorted_nil).1 "A"

end BuildEnvModel
